import Mathlib

/-!
Verification of the versioned-document server core (naming/versioning,
context store, placeholder scanner, find-and-replace engine, and the
edit-document orchestration path).

Strings are modelled as `List Char` (`Str`).  Python's `re`-based version
suffix handling, `str.replace`, substring tests (`in`), dict merge and the
`python-docx` paragraph/run document shape are embedded as executable Lean
functions; the remote storage client is modelled as an oracle of read
responses, and the orchestration path is a pure function that also returns
the ordered trace of storage operations it performs.
-/

/-- Strings of the embedded program: Python `str` as a list of characters. -/
abbrev Str := List Char

/-- Lowercasing used for the case-insensitive comparisons (`str.lower()`,
`re.IGNORECASE`); ASCII lowercasing, as in the filenames this system mints. -/
def lowerStr (s : Str) : Str := s.map Char.toLower

/-- ASCII decimal digit test, the `\d` character class of the version regex. -/
def isDigitC (c : Char) : Bool := '0' ≤ c && c ≤ '9'

/-- Decimal digit character for `d`, used to embed Python `str(n)`. -/
def digitChar (d : Nat) : Char :=
  match d with
  | 0 => '0' | 1 => '1' | 2 => '2' | 3 => '3' | 4 => '4'
  | 5 => '5' | 6 => '6' | 7 => '7' | 8 => '8' | _ => '9'

/-- Worker for `natToDecimal`.  The first argument is fuel; any fuel above
the number of decimal digits (in particular fuel greater than `n`, as used
below) yields the exact decimal rendering. -/
def natToDecimalAux : Nat → Nat → Str
  | 0, _ => []
  | fuel + 1, n =>
    if n < 10 then [digitChar n]
    else natToDecimalAux fuel (n / 10) ++ [digitChar (n % 10)]

/-- Decimal rendering of a natural number: Python `str(n)`. -/
def natToDecimal (n : Nat) : Str := natToDecimalAux (n + 1) n

/-- Numeric value of a digit string, the embedding of Python `int(digits)`
for the digits captured by the version-number regex. -/
def digitsToNat (ds : Str) : Nat :=
  ds.foldl (fun acc c => acc * 10 + (c.toNat - '0'.toNat)) 0

/-- Python `str.zfill(2)`: left-pad with `'0'` to width 2 (wider strings are
returned unchanged, so the width grows naturally past 99). -/
def zfill2 (s : Str) : Str :=
  if 2 ≤ s.length then s else List.replicate (2 - s.length) '0' ++ s

/-- Decomposition performed by the version-suffix regex
`_v(\d+)\.docx$` with `re.IGNORECASE` (used by both `get_version_number`
via `re.search` and `get_family_name` via `re.sub`).  A match that ends at
the end of the string must consist of `_v`, a nonempty digit run, and
`.docx`; since the digit run is bounded on the left by the non-digit `v`,
such a decomposition is unique when it exists, so the regex match is
exactly: the string ends (case-insensitively) with `.docx`, the maximal
digit run immediately before that extension is nonempty, and it is
immediately preceded by `_v` (case-insensitive `v`).  Returns the prefix
before the match (the family name) and the captured digit run. -/
def splitVersionSuffix (f : Str) : Option (Str × Str) :=
  let r := f.reverse
  if lowerStr (r.take 5) = "xcod.".data then
    let r1 := r.drop 5
    let digs := r1.takeWhile isDigitC
    if digs = [] then none
    else
      match r1.drop digs.length with
      | v :: u :: rest =>
          if v.toLower = 'v' ∧ u = '_' then some (rest.reverse, digs.reverse)
          else none
      | _ => none
  else none

/-- Embedding of `get_version_number` (src/src/utils/docx_utils.py): the
integer captured by `re.search(_v(\d+)\.docx$, filename, IGNORECASE)`,
or 0 when there is no match. -/
def get_version_number (filename : Str) : Nat :=
  match splitVersionSuffix filename with
  | some (_, ds) => digitsToNat ds
  | none => 0

/-- Embedding of `get_family_name` (src/src/utils/docx_utils.py):
`re.sub(_v\d+\.docx$, empty, filename, IGNORECASE)` — the filename with a
trailing version suffix removed, or unchanged when none matches. -/
def get_family_name (filename : Str) : Str :=
  match splitVersionSuffix filename with
  | some (fam, _) => fam
  | none => filename

/-- The family filter shared by `next_version_filename` and
`get_latest_version_filename`: files whose family name matches
case-insensitively and whose name ends in `.docx` (case-sensitive
`str.endswith`). -/
def familyFiles (family_name : Str) (existing_files : List Str) : List Str :=
  existing_files.filter
    (fun f => decide (lowerStr (get_family_name f) = lowerStr family_name ∧ ".docx".data <:+ f))

/-- Python `max(get_version_number(f) for f in files)` over a list that the
caller has checked to be nonempty (on `[]` it returns 0, a value the code
never uses). -/
def maxVersion (files : List Str) : Nat :=
  (files.map get_version_number).foldl Nat.max 0

/-- Embedding of `next_version_filename` (src/src/utils/docx_utils.py). -/
def next_version_filename (family_name : Str) (existing_files : List Str) : Str :=
  let family_files := familyFiles family_name existing_files
  let next_num := if family_files = [] then 1 else maxVersion family_files + 1
  family_name ++ '_' :: 'v' :: (zfill2 (natToDecimal next_num) ++ ".docx".data)

/-- Python `max(files, key=get_version_number)`: the first element whose key
is maximal (later elements replace the current best only when strictly
greater). -/
def maxByVersion : List Str → Option Str
  | [] => none
  | f :: fs =>
    match maxByVersion fs with
    | none => some f
    | some g => if get_version_number g > get_version_number f then some g else some f

/-- Embedding of `get_latest_version_filename` (src/src/utils/docx_utils.py). -/
def get_latest_version_filename (family_name : Str) (existing_files : List Str) : Option Str :=
  let family_files := familyFiles family_name existing_files
  match family_files with
  | [] => none
  | _ => maxByVersion family_files

example : get_version_number "tender_BSCGlobal_v03.docx".data = 3 := by decide
example : get_version_number "plain.docx".data = 0 := by decide
example : get_family_name "tender_BSCGlobal_v03.docx".data = "tender_BSCGlobal".data := by decide
example : next_version_filename "Proj".data ["proj_v01.docx".data] = "Proj_v02.docx".data := by decide
example : next_version_filename "demo".data [] = "demo_v01.docx".data := by decide
example : get_latest_version_filename "demo".data ["demo_v01.docx".data, "demo_v02.docx".data] =
    some "demo_v02.docx".data := by decide

/-! ## Document model (python-docx)

A `.docx` document as the code observes it through `python-docx`: a list of
body paragraphs and a list of tables, each table holding rows of cells
whose content is again a list of paragraphs.  A paragraph is a list of text
runs, and `para.text` is the concatenation of its runs' text. -/

structure Run where
  text : Str
deriving DecidableEq

structure Paragraph where
  runs : List Run
deriving DecidableEq

/-- The visible text of a paragraph (`para.text` in python-docx): the
concatenation of the text of its runs. -/
def Paragraph.text (p : Paragraph) : Str := (p.runs.map Run.text).flatten

structure Cell where
  paragraphs : List Paragraph
deriving DecidableEq

structure Row where
  cells : List Cell
deriving DecidableEq

structure Table where
  rows : List Row
deriving DecidableEq

structure DocxDocument where
  paragraphs : List Paragraph
  tables : List Table
deriving DecidableEq

/-- All paragraphs the traversal of `find_and_replace` and
`scan_placeholders` visits: body paragraphs first, then every cell
paragraph of every table, in document order. -/
def Table.cellParagraphs (t : Table) : List Paragraph :=
  (t.rows.map (fun row => (row.cells.map Cell.paragraphs).flatten)).flatten

def allParagraphs (d : DocxDocument) : List Paragraph :=
  d.paragraphs ++ (d.tables.map Table.cellParagraphs).flatten

/-- All runs of the document, in traversal order. -/
def allRuns (d : DocxDocument) : List Run :=
  ((allParagraphs d).map Paragraph.runs).flatten

/-! ## Find-and-replace (src/src/utils/docx_utils.py, find_and_replace) -/

/-- Python `str.replace` on a nonempty pattern: scan left to right; at a
position where the pattern is a prefix, emit the replacement and skip the
pattern, otherwise emit the character and continue.  The first argument is
fuel; since every step consumes at least one character of the scanned
string, fuel equal to its length (as supplied by `replaceAll`) is never
exhausted. -/
def replAux (find repl : Str) : Nat → Str → Str
  | 0, s => s
  | _ + 1, [] => []
  | fuel + 1, c :: rest =>
    if find <+: c :: rest then repl ++ replAux find repl fuel (rest.drop (find.length - 1))
    else c :: replAux find repl fuel rest

/-- Python `str.replace(find, repl)` including its empty-pattern semantics:
replacing the empty string inserts the replacement at every character
boundary, including both ends. -/
def replaceAll (find repl s : Str) : Str :=
  match find with
  | [] => repl ++ (s.map (fun c => c :: repl)).flatten
  | f :: fs => replAux (f :: fs) repl s.length s

/-- The body of the run loop of `find_and_replace`: a run is rewritten with
`str.replace` exactly when the search text occurs in that run's own text. -/
def replaceRunIfMatch (find repl : Str) (r : Run) : Run :=
  if find <:+: r.text then { text := replaceAll find repl r.text } else r

/-- The run loop of `find_and_replace` inside one paragraph, also counting
one replacement per run that contained the search text. -/
def farRuns (find repl : Str) : List Run → List Run × Nat
  | [] => ([], 0)
  | r :: rs =>
    let rest := farRuns find repl rs
    if find <:+: r.text then
      ({ text := replaceAll find repl r.text } :: rest.1, rest.2 + 1)
    else (r :: rest.1, rest.2)

/-- One paragraph of `find_and_replace`: runs are only examined when the
search text occurs in the paragraph's assembled visible text. -/
def farParagraph (find repl : Str) (p : Paragraph) : Paragraph × Nat :=
  if find <:+: p.text then
    let rest := farRuns find repl p.runs
    (⟨rest.1⟩, rest.2)
  else (p, 0)

def farParagraphs (find repl : Str) : List Paragraph → List Paragraph × Nat
  | [] => ([], 0)
  | p :: ps =>
    let hd := farParagraph find repl p
    let tl := farParagraphs find repl ps
    (hd.1 :: tl.1, hd.2 + tl.2)

def farCell (find repl : Str) (c : Cell) : Cell × Nat :=
  let r := farParagraphs find repl c.paragraphs
  (⟨r.1⟩, r.2)

def farCells (find repl : Str) : List Cell → List Cell × Nat
  | [] => ([], 0)
  | c :: cs =>
    let hd := farCell find repl c
    let tl := farCells find repl cs
    (hd.1 :: tl.1, hd.2 + tl.2)

def farRow (find repl : Str) (row : Row) : Row × Nat :=
  let r := farCells find repl row.cells
  (⟨r.1⟩, r.2)

def farRows (find repl : Str) : List Row → List Row × Nat
  | [] => ([], 0)
  | r :: rs =>
    let hd := farRow find repl r
    let tl := farRows find repl rs
    (hd.1 :: tl.1, hd.2 + tl.2)

def farTable (find repl : Str) (t : Table) : Table × Nat :=
  let r := farRows find repl t.rows
  (⟨r.1⟩, r.2)

def farTables (find repl : Str) : List Table → List Table × Nat
  | [] => ([], 0)
  | t :: ts =>
    let hd := farTable find repl t
    let tl := farTables find repl ts
    (hd.1 :: tl.1, hd.2 + tl.2)

/-- Embedding of `find_and_replace` (src/src/utils/docx_utils.py): walk the
body paragraphs and then every table cell's paragraphs, rewriting runs and
accumulating the global replacement counter; returns the updated document
and the count. -/
def find_and_replace (d : DocxDocument) (find_text replace_text : Str) :
    DocxDocument × Nat :=
  let ps := farParagraphs find_text replace_text d.paragraphs
  let ts := farTables find_text replace_text d.tables
  (⟨ps.1, ts.1⟩, ps.2 + ts.2)

/-- Structure-preserving rewrite of every run of a document, used to state
what `find_and_replace` does to the document. -/
def mapRunsPara (g : Run → Run) (p : Paragraph) : Paragraph := ⟨p.runs.map g⟩

def mapRuns (d : DocxDocument) (g : Run → Run) : DocxDocument :=
  ⟨d.paragraphs.map (mapRunsPara g),
   d.tables.map (fun t =>
     ⟨t.rows.map (fun row =>
       ⟨row.cells.map (fun c => ⟨c.paragraphs.map (mapRunsPara g)⟩)⟩)⟩)⟩

/-! ## Placeholder scanner (src/src/utils/docx_utils.py, scan_placeholders) -/

/-- Python `\w` on the identifier characters the spec names: letters,
digits, underscore. -/
def isWordChar (c : Char) : Bool := c.isAlphanum || c = '_'

/-- Python `\s`: the six ASCII whitespace characters. -/
def pyIsSpace (c : Char) : Bool :=
  c = ' ' || c = '\t' || c = '\n' || c = '\x0b' || c = '\x0c' || c = '\r'

/-- One attempted match of the placeholder regex (two opening braces,
optional whitespace, a nonempty run of word characters captured as the
identifier, optional whitespace, two closing braces) at the head of the
string.  The three character classes involved are pairwise disjoint and
none contains the closing brace, so the regex's greedy matching is the
maximal-munch scan written here.  Returns the captured identifier and the
remainder of the string after the match. -/
def matchPlaceholder : Str → Option (Str × Str)
  | '\x7b' :: '\x7b' :: rest =>
    let r1 := rest.dropWhile pyIsSpace
    let ident := r1.takeWhile isWordChar
    if ident = [] then none
    else
      match (r1.drop ident.length).dropWhile pyIsSpace with
      | '\x7d' :: '\x7d' :: rest2 => some (ident, rest2)
      | _ => none
  | _ => none

/-- Python `re.findall` with the placeholder pattern: scan left to right,
recording each match's captured identifier and continuing after the match
(matches never overlap), advancing one character where no match starts.
Fuel is the length of the string; every match consumes at least one
character, so this fuel is never exhausted. -/
def findallPlaceholders : Nat → Str → List Str
  | 0, _ => []
  | _ + 1, [] => []
  | fuel + 1, c :: rest =>
    match matchPlaceholder (c :: rest) with
    | some (ident, rest2) => ident :: findallPlaceholders fuel rest2
    | none => findallPlaceholders fuel rest

/-- Identifiers matched by the placeholder pattern in one paragraph's
visible text, in match order. -/
def paragraphPlaceholders (p : Paragraph) : List Str :=
  findallPlaceholders p.text.length p.text

/-- Every placeholder match produced while `scan_placeholders` walks the
body paragraphs and then all table-cell paragraphs, in traversal order
(the code accumulates these into a set). -/
def allPlaceholderMatches (d : DocxDocument) : List Str :=
  ((allParagraphs d).map paragraphPlaceholders).flatten

/-- Embedding of `scan_placeholders` (src/src/utils/docx_utils.py):
`sorted(set(matches))` — the distinct matched identifiers in increasing
lexicographic (code-point) order, which is the `List Char` linear order. -/
def scan_placeholders (d : DocxDocument) : List Str :=
  List.insertionSort (· ≤ ·) (allPlaceholderMatches d).dedup

/-! ## Context store (src/src/utils/docx_utils.py) and the dict merge
(src/src/actions/fill_template.py)

A context is a Python dict: a key-value list with the keys of a dict
understood to be distinct, looked up by first occurrence.  The JSON text
encoding (`json.dumps` / `json.loads`) is the external library's; the
functions below take it as a parameter where they need it. -/

/-- Python dict subscript on the association-list model of a dict. -/
def lookupKey {α : Type} (k : Str) : List (Str × α) → Option α
  | [] => none
  | (k', v) :: rest => if k' = k then some v else lookupKey k rest

/-- Embedding of the shallow merge `{**previous_context, **replacements}`
of `fill_template_action` (src/src/actions/fill_template.py line 92):
every key of the first dict is kept in place, its value overwritten by the
second dict's where present; keys only in the second dict are appended. -/
def dictMerge {α : Type} (p r : List (Str × α)) : List (Str × α) :=
  p.map (fun kv => match lookupKey kv.1 r with | some v => (kv.1, v) | none => kv)
    ++ r.filter (fun kv => (lookupKey kv.1 p).isNone)

/-- Embedding of `deserialize_context` (src/src/utils/docx_utils.py): an
empty input string (Python falsy, which is also the sentinel
`download_json_file` returns for an absent record) yields the empty dict
without consulting the parser; any other input is handed to `json.loads`,
passed in here as the parameter `loads`. -/
def deserialize_context {α : Type} (loads : Str → List (Str × α)) (json_str : Str) :
    List (Str × α) :=
  if json_str = [] then [] else loads json_str

/-! ## The edit-document orchestration path (src/src/actions/edit_document.py)

The storage backend (Microsoft Graph) is external; it is modelled by an
oracle `Graph` of read responses — `listing` for `list_onedrive_folder`,
`docx` for `download_onedrive_file` (parsed), `json` for
`download_json_file` (which returns the empty string for an absent file),
and `url` for the link `upload_onedrive_file` answers.  The action is a
pure function of this oracle returning the result message (as a structured
value carrying exactly the data the f-string interpolates) together with
the ordered trace of storage operations it performed. -/

/-- One entry of a `list_onedrive_folder` response. -/
structure Item where
  name : Str
  is_folder : Bool
deriving DecidableEq

/-- Read-response oracle for the storage backend. -/
structure Graph where
  listing : Str → List Item
  docx : Str → Str → DocxDocument
  json : Str → Str → Str
  url : Str → Str → Str

/-- One storage operation, in the order the action issues them. -/
inductive StorageEvent where
  | listFolder (folder : Str)
  | downloadDocx (folder name : Str)
  | downloadJson (folder name : Str)
  | uploadDocx (folder name : Str) (content : DocxDocument)
  | uploadJson (folder name : Str) (content : Str)
deriving DecidableEq

/-- The write operations among the storage events. -/
def StorageEvent.isWrite : StorageEvent → Bool
  | .uploadDocx _ _ _ => true
  | .uploadJson _ _ _ => true
  | _ => false

/-- Observable stored state: the document files and JSON files present, per
folder and name.  Only upload events change it. -/
structure StoreState where
  docs : Str → Str → Option DocxDocument
  jsons : Str → Str → Option Str

def applyEvent (st : StoreState) : StorageEvent → StoreState
  | .uploadDocx folder name content =>
    { st with docs := fun f n => if f = folder ∧ n = name then some content else st.docs f n }
  | .uploadJson folder name content =>
    { st with jsons := fun f n => if f = folder ∧ n = name then some content else st.jsons f n }
  | _ => st

def applyTrace (st : StoreState) (tr : List StorageEvent) : StoreState :=
  tr.foldl applyEvent st

/-- Result value of `edit_document_action`, carrying the data of the three
strings the code can return. -/
inductive EditResult where
  | noVersions (project : Str)
  | notFound (find_text latest : Str)
  | success (new_filename project find_text replace_text : Str) (count : Nat) (url : Str)
deriving DecidableEq

/-- The project folder `onedrive_output_folder/project_name`. -/
def projectFolder (output_folder project_name : Str) : Str :=
  output_folder ++ '/' :: project_name

/-- The memory folder `project_folder/Memory`. -/
def memoryFolder (project_folder : Str) : Str :=
  project_folder ++ "/Memory".data

/-- The names of the non-folder items of a listing. -/
def listedFiles (items : List Item) : List Str :=
  (items.filter (fun i => !i.is_folder)).map Item.name

/-- Embedding of `edit_document_action` (src/src/actions/edit_document.py).
Control flow in source order: list the project folder (empty listing or no
latest version → `noVersions`); download the latest version; run
`find_and_replace` (zero replacements → `notFound`, nothing further
happens); otherwise upload the updated document as the next version, then
read the previous version's Memory JSON, and upload it under the new
version's name only when the deserialized previous context is nonempty
(Python dict truthiness).  The `.docx` → `.json` renaming is Python
`str.replace`.  Returns the result and the trace of storage operations. -/
def edit_document_action {α : Type} (g : Graph) (loads : Str → List (Str × α))
    (dumps : List (Str × α) → Str)
    (project_name find_text replace_text onedrive_output_folder : Str) :
    EditResult × List StorageEvent :=
  let project_folder := projectFolder onedrive_output_folder project_name
  let memory_folder := memoryFolder project_folder
  let existing_items := g.listing project_folder
  if existing_items = [] then
    (.noVersions project_name, [.listFolder project_folder])
  else
    let existing_files := listedFiles existing_items
    match get_latest_version_filename project_name existing_files with
    | none => (.noVersions project_name, [.listFolder project_folder])
    | some latest_docx =>
      let docx_bytes := g.docx project_folder latest_docx
      let far := find_and_replace docx_bytes find_text replace_text
      if far.2 = 0 then
        (.notFound find_text latest_docx,
         [.listFolder project_folder, .downloadDocx project_folder latest_docx])
      else
        let new_filename := next_version_filename project_name existing_files
        let web_url := g.url project_folder new_filename
        let previous_memory := replaceAll ".docx".data ".json".data latest_docx
        let json_str := g.json memory_folder previous_memory
        let previous_context := deserialize_context loads json_str
        let base :=
          [StorageEvent.listFolder project_folder,
           .downloadDocx project_folder latest_docx,
           .uploadDocx project_folder new_filename far.1,
           .downloadJson memory_folder previous_memory]
        if previous_context.isEmpty then
          (.success new_filename project_name find_text replace_text far.2 web_url, base)
        else
          let new_memory := replaceAll ".docx".data ".json".data new_filename
          (.success new_filename project_name find_text replace_text far.2 web_url,
           base ++ [.uploadJson memory_folder new_memory (dumps previous_context)])

/-- The content of the last JSON upload to `folder`/`name` in a trace, if
any: what the trace leaves stored under that name. -/
def jsonWritten (tr : List StorageEvent) (folder name : Str) : Option Str :=
  tr.foldl
    (fun acc e =>
      match e with
      | .uploadJson f n c => if f = folder ∧ n = name then some c else acc
      | _ => acc)
    none

/-- The claim of spec section 7 as it reads on a trace: every upload is
preceded by a Memory-record read (a `downloadJson` event). -/
def uploadsOnlyAfterMemoryRead : List StorageEvent → Bool → Bool
  | [], _ => true
  | e :: rest, seen =>
    if e.isWrite then seen && uploadsOnlyAfterMemoryRead rest seen
    else
      match e with
      | .downloadJson _ _ => uploadsOnlyAfterMemoryRead rest true
      | _ => uploadsOnlyAfterMemoryRead rest seen

/-! ## Theorems

Helper lemmas first, then one theorem per claim (witnesses directly after
their theorem). -/

theorem docx_data : ".docx".data = ['.', 'd', 'o', 'c', 'x'] := rfl

theorem digitChar_isDigit (d : Nat) : isDigitC (digitChar d) = true := by
  unfold digitChar
  split <;> decide

theorem digitVal_digitChar (d : Nat) (h : d < 10) : (digitChar d).toNat - '0'.toNat = d := by
  interval_cases d <;> decide

theorem digitsToNat_snoc (xs : Str) (c : Char) :
    digitsToNat (xs ++ [c]) = 10 * digitsToNat xs + (c.toNat - '0'.toNat) := by
  simp only [digitsToNat, List.foldl_append, List.foldl_cons, List.foldl_nil]
  omega

theorem natToDecimalAux_val : ∀ fuel n, n < fuel → digitsToNat (natToDecimalAux fuel n) = n := by
  intro fuel
  induction fuel with
  | zero => intro n h; omega
  | succ fuel ih =>
    intro n h
    by_cases h10 : n < 10
    · simp only [natToDecimalAux, if_pos h10]
      have := digitVal_digitChar n h10
      simp only [digitsToNat, List.foldl_cons, List.foldl_nil]
      omega
    · have hdiv : n / 10 < n := Nat.div_lt_self (by omega) (by omega)
      have hfuel : n / 10 < fuel := by omega
      simp only [natToDecimalAux, if_neg h10]
      rw [digitsToNat_snoc, ih _ hfuel, digitVal_digitChar _ (Nat.mod_lt _ (by omega))]
      omega

theorem natToDecimalAux_digits :
    ∀ fuel n, ∀ c ∈ natToDecimalAux fuel n, isDigitC c = true := by
  intro fuel
  induction fuel with
  | zero => intro n c hc; simp [natToDecimalAux] at hc
  | succ fuel ih =>
    intro n c hc
    by_cases h10 : n < 10
    · simp only [natToDecimalAux, if_pos h10, List.mem_singleton] at hc
      subst hc; exact digitChar_isDigit n
    · simp only [natToDecimalAux, if_neg h10, List.mem_append, List.mem_singleton] at hc
      rcases hc with hc | hc
      · exact ih _ _ hc
      · subst hc; exact digitChar_isDigit _

theorem natToDecimalAux_ne_nil (fuel n : Nat) (h : 0 < fuel) :
    natToDecimalAux fuel n ≠ [] := by
  cases fuel with
  | zero => omega
  | succ fuel =>
    by_cases h10 : n < 10
    · simp [natToDecimalAux, if_pos h10]
    · simp [natToDecimalAux, if_neg h10]

theorem natToDecimal_val (n : Nat) : digitsToNat (natToDecimal n) = n :=
  natToDecimalAux_val (n + 1) n (Nat.lt_succ_self n)

theorem natToDecimal_digits (n : Nat) : ∀ c ∈ natToDecimal n, isDigitC c = true :=
  natToDecimalAux_digits (n + 1) n

theorem natToDecimal_ne_nil (n : Nat) : natToDecimal n ≠ [] :=
  natToDecimalAux_ne_nil (n + 1) n (Nat.succ_pos n)

theorem digitsToNat_cons_zero (s : Str) : digitsToNat ('0' :: s) = digitsToNat s := rfl

theorem digitsToNat_replicate_zero (k : Nat) (s : Str) :
    digitsToNat (List.replicate k '0' ++ s) = digitsToNat s := by
  induction k with
  | zero => rfl
  | succ k ih => simpa [List.replicate_succ, digitsToNat_cons_zero] using ih

theorem zfill2_val (s : Str) : digitsToNat (zfill2 s) = digitsToNat s := by
  unfold zfill2
  split
  · rfl
  · exact digitsToNat_replicate_zero _ s

theorem zfill2_digits (s : Str) (hs : ∀ c ∈ s, isDigitC c = true) :
    ∀ c ∈ zfill2 s, isDigitC c = true := by
  intro c hc
  unfold zfill2 at hc
  split at hc
  · exact hs c hc
  · rcases List.mem_append.mp hc with hc | hc
    · rw [List.eq_of_mem_replicate hc]; decide
    · exact hs c hc

theorem zfill2_ne_nil (s : Str) : zfill2 s ≠ [] := by
  unfold zfill2
  split
  · intro h
    subst h
    simp at *
  · intro h
    have : (List.replicate (2 - s.length) '0' ++ s).length = 0 := by rw [h]; rfl
    simp [List.length_replicate] at this
    omega

theorem takeWhile_append_cons {α : Type} {p : α → Bool} :
    ∀ (l₁ : List α) (b : α) (l₂ : List α), (∀ a ∈ l₁, p a = true) → p b = false →
    (l₁ ++ b :: l₂).takeWhile p = l₁ := by
  intro l₁
  induction l₁ with
  | nil => intro b l₂ _ hb; simp [List.takeWhile_cons, hb]
  | cons a l₁ ih =>
    intro b l₂ ha hb
    have hpa : p a = true := ha a (List.mem_cons_self a l₁)
    simp only [List.cons_append, List.takeWhile_cons, hpa, if_true]
    rw [ih b l₂ (fun x hx => ha x (List.mem_cons_of_mem a hx)) hb]

theorem splitVersionSuffix_append (F D : Str) (hD : ∀ c ∈ D, isDigitC c = true)
    (hne : D ≠ []) :
    splitVersionSuffix (F ++ '_' :: 'v' :: (D ++ ".docx".data)) = some (F, D) := by
  have hrev : (F ++ '_' :: 'v' :: (D ++ ".docx".data)).reverse
      = ['x', 'c', 'o', 'd', '.'] ++ (D.reverse ++ 'v' :: '_' :: F.reverse) := by
    rw [docx_data]
    simp [List.reverse_append]
  have htake : (['x', 'c', 'o', 'd', '.'] ++ (D.reverse ++ 'v' :: '_' :: F.reverse)).take 5
      = ['x', 'c', 'o', 'd', '.'] := List.take_left' rfl
  have hdrop : (['x', 'c', 'o', 'd', '.'] ++ (D.reverse ++ 'v' :: '_' :: F.reverse)).drop 5
      = D.reverse ++ 'v' :: '_' :: F.reverse := List.drop_left' rfl
  have hdigs : (D.reverse ++ 'v' :: '_' :: F.reverse).takeWhile isDigitC = D.reverse :=
    takeWhile_append_cons _ _ _ (fun a ha => hD a (List.mem_reverse.mp ha)) (by decide)
  have hdigs_ne : ¬ D.reverse = [] := by
    simpa [List.reverse_eq_nil_iff] using hne
  have hdrop2 : (D.reverse ++ 'v' :: '_' :: F.reverse).drop D.reverse.length
      = 'v' :: '_' :: F.reverse := List.drop_left _ _
  simp only [splitVersionSuffix, hrev, htake, hdrop, hdigs, hdrop2]
  rw [if_pos (by decide)]
  rw [if_neg hdigs_ne]
  simp [List.reverse_reverse]

theorem get_version_number_append (F D : Str) (hD : ∀ c ∈ D, isDigitC c = true)
    (hne : D ≠ []) :
    get_version_number (F ++ '_' :: 'v' :: (D ++ ".docx".data)) = digitsToNat D := by
  unfold get_version_number
  rw [splitVersionSuffix_append F D hD hne]

/-- C1: for every family name and every `n ≥ 1`, if the existing files
contain no file of the family (and `n = 1`), or their maximum version
number for the family is `n - 1`, then parsing the version number out of
the filename `next_version_filename` mints yields exactly `n`. -/
theorem get_version_number_of_next_version_filename (F : Str) (files : List Str) (n : Nat)
    (hn : 1 ≤ n)
    (h : (familyFiles F files = [] ∧ n = 1) ∨
         (familyFiles F files ≠ [] ∧ maxVersion (familyFiles F files) = n - 1)) :
    get_version_number (next_version_filename F files) = n := by
  have hnext : (if familyFiles F files = [] then 1 else maxVersion (familyFiles F files) + 1) = n := by
    rcases h with ⟨h1, h2⟩ | ⟨h1, h2⟩
    · rw [if_pos h1, h2]
    · rw [if_neg h1, h2]; omega
  simp only [next_version_filename, hnext]
  rw [get_version_number_append F _ (zfill2_digits _ (natToDecimal_digits n)) (zfill2_ne_nil _)]
  rw [zfill2_val, natToDecimal_val]

/-- Witness for C1: family `demo` with one existing file at version 1 and
`n = 2`. -/
theorem get_version_number_of_next_version_filename_witness :
    1 ≤ 2 ∧ get_version_number (next_version_filename "demo".data ["demo_v01.docx".data]) = 2 :=
  ⟨by decide,
   get_version_number_of_next_version_filename "demo".data ["demo_v01.docx".data] 2 (by decide)
     (Or.inr ⟨by decide, by decide⟩)⟩

example : replaceAll "AA".data "B".data "AAA".data = "BA".data := by decide
example : replaceAll "".data "-".data "ab".data = "-a-b-".data := by decide
example : replaceAll ".docx".data ".json".data "demo_v01.docx".data = "demo_v01.json".data := by decide

theorem run_text_within_para (p : Paragraph) (r : Run) (hr : r ∈ p.runs) :
    r.text <:+: p.text := by
  obtain ⟨s, t, hst⟩ := List.append_of_mem (List.mem_map_of_mem Run.text hr)
  unfold Paragraph.text
  rw [hst, List.flatten_append, List.flatten_cons]
  exact ⟨s.flatten, t.flatten, by simp⟩

theorem farRuns_eq (f r : Str) (l : List Run) :
    farRuns f r l = (l.map (replaceRunIfMatch f r),
      l.countP (fun run => decide (f <:+: run.text))) := by
  induction l with
  | nil => rfl
  | cons run rs ih =>
    simp only [farRuns, ih, List.map_cons, List.countP_cons, replaceRunIfMatch]
    by_cases h : f <:+: run.text
    · simp [h]
    · simp [h]

theorem farParagraph_eq (f r : Str) (p : Paragraph) :
    farParagraph f r p = (mapRunsPara (replaceRunIfMatch f r) p,
      p.runs.countP (fun run => decide (f <:+: run.text))) := by
  unfold farParagraph
  by_cases hp : f <:+: p.text
  · rw [if_pos hp, farRuns_eq]
    rfl
  · rw [if_neg hp]
    have hrun : ∀ run ∈ p.runs, ¬ (f <:+: run.text) := by
      intro run hr hcontra
      exact hp (hcontra.trans (run_text_within_para p run hr))
    have h1 : p.runs.map (replaceRunIfMatch f r) = p.runs := by
      conv_rhs => rw [← List.map_id p.runs]
      exact List.map_congr_left (fun run hr => by
        simp [replaceRunIfMatch, hrun run hr])
    have h2 : p.runs.countP (fun run => decide (f <:+: run.text)) = 0 :=
      List.countP_eq_zero.mpr (fun run hr => by simpa using hrun run hr)
    rw [h2]
    unfold mapRunsPara
    rw [h1]

theorem farParagraphs_eq (f r : Str) (l : List Paragraph) :
    farParagraphs f r l = (l.map (mapRunsPara (replaceRunIfMatch f r)),
      (l.map (fun p => p.runs.countP (fun run => decide (f <:+: run.text)))).sum) := by
  induction l with
  | nil => rfl
  | cons p ps ih =>
    simp only [farParagraphs, farParagraph_eq, ih, List.map_cons, List.sum_cons]

theorem farCell_eq (f r : Str) (c : Cell) :
    farCell f r c = (⟨c.paragraphs.map (mapRunsPara (replaceRunIfMatch f r))⟩,
      (c.paragraphs.map (fun p => p.runs.countP (fun run => decide (f <:+: run.text)))).sum) := by
  unfold farCell
  rw [farParagraphs_eq]

theorem farCells_eq (f r : Str) (cs : List Cell) :
    farCells f r cs = (cs.map (fun c => ⟨c.paragraphs.map (mapRunsPara (replaceRunIfMatch f r))⟩),
      (cs.map (fun c =>
        (c.paragraphs.map (fun p => p.runs.countP (fun run => decide (f <:+: run.text)))).sum)).sum) := by
  induction cs with
  | nil => rfl
  | cons c cs ih =>
    simp only [farCells, farCell_eq, ih, List.map_cons, List.sum_cons]

theorem farRow_eq (f r : Str) (row : Row) :
    farRow f r row = (⟨row.cells.map (fun c => ⟨c.paragraphs.map (mapRunsPara (replaceRunIfMatch f r))⟩)⟩,
      (row.cells.map (fun c =>
        (c.paragraphs.map (fun p => p.runs.countP (fun run => decide (f <:+: run.text)))).sum)).sum) := by
  unfold farRow
  rw [farCells_eq]

theorem farRows_eq (f r : Str) (rows : List Row) :
    farRows f r rows = (rows.map (fun row =>
        ⟨row.cells.map (fun c => ⟨c.paragraphs.map (mapRunsPara (replaceRunIfMatch f r))⟩)⟩),
      (rows.map (fun row => (row.cells.map (fun c =>
        (c.paragraphs.map (fun p => p.runs.countP (fun run => decide (f <:+: run.text)))).sum)).sum)).sum) := by
  induction rows with
  | nil => rfl
  | cons row rows ih =>
    simp only [farRows, farRow_eq, ih, List.map_cons, List.sum_cons]

theorem farTable_eq (f r : Str) (t : Table) :
    farTable f r t = (⟨t.rows.map (fun row =>
        ⟨row.cells.map (fun c => ⟨c.paragraphs.map (mapRunsPara (replaceRunIfMatch f r))⟩)⟩)⟩,
      (t.rows.map (fun row => (row.cells.map (fun c =>
        (c.paragraphs.map (fun p => p.runs.countP (fun run => decide (f <:+: run.text)))).sum)).sum)).sum) := by
  unfold farTable
  rw [farRows_eq]

theorem farTables_eq (f r : Str) (ts : List Table) :
    farTables f r ts = (ts.map (fun t => ⟨t.rows.map (fun row =>
        ⟨row.cells.map (fun c => ⟨c.paragraphs.map (mapRunsPara (replaceRunIfMatch f r))⟩)⟩)⟩),
      (ts.map (fun t => (t.rows.map (fun row => (row.cells.map (fun c =>
        (c.paragraphs.map (fun p => p.runs.countP (fun run => decide (f <:+: run.text)))).sum)).sum)).sum)).sum) := by
  induction ts with
  | nil => rfl
  | cons t ts ih =>
    simp only [farTables, farTable_eq, ih, List.map_cons, List.sum_cons]

theorem sum_map_flatten {α : Type} (g : α → Nat) (L : List (List α)) :
    (L.flatten.map g).sum = (L.map (fun l => (l.map g).sum)).sum := by
  induction L with
  | nil => rfl
  | cons l L ih =>
    simp only [List.flatten_cons, List.map_append, List.sum_append, ih, List.map_cons,
      List.sum_cons]

theorem table_count_eq (m : Run → Bool) (t : Table) :
    ((Table.cellParagraphs t).map (fun p => p.runs.countP m)).sum
      = (t.rows.map (fun row => (row.cells.map (fun c =>
          (c.paragraphs.map (fun p => p.runs.countP m)).sum)).sum)).sum := by
  unfold Table.cellParagraphs
  rw [sum_map_flatten, List.map_map]
  congr 1
  refine List.map_congr_left (fun row _ => ?_)
  show (((row.cells.map Cell.paragraphs).flatten).map (fun p => p.runs.countP m)).sum = _
  rw [sum_map_flatten, List.map_map]
  rfl

/-- The replacement counter of `find_and_replace` as a count over all runs:
the traversal's nested sums collapse to a `countP` over `allRuns`. -/
theorem count_as_allRuns (d : DocxDocument) (m : Run → Bool) :
    (allRuns d).countP m
      = (d.paragraphs.map (fun p => p.runs.countP m)).sum
        + (d.tables.map (fun t => (t.rows.map (fun row => (row.cells.map (fun c =>
            (c.paragraphs.map (fun p => p.runs.countP m)).sum)).sum)).sum)).sum := by
  unfold allRuns allParagraphs
  rw [List.countP_flatten, List.map_map, List.map_append, List.sum_append]
  congr 1
  show (((d.tables.map Table.cellParagraphs).flatten).map (fun p => p.runs.countP m)).sum = _
  rw [sum_map_flatten, List.map_map]
  congr 1
  exact List.map_congr_left (fun t _ => table_count_eq m t)

/-- What `find_and_replace` computes, in closed form: every run whose own
text contains the search text is rewritten with `str.replace` (runs whose
text does not contain it — including runs that only form the search text
together with their neighbours — are untouched), and the counter is the
number of such runs across the whole document. -/
theorem find_and_replace_eq (d : DocxDocument) (f r : Str) :
    find_and_replace d f r = (mapRuns d (replaceRunIfMatch f r),
      (allRuns d).countP (fun run => decide (f <:+: run.text))) := by
  unfold find_and_replace
  rw [farParagraphs_eq, farTables_eq, count_as_allRuns]
  rfl

theorem mem_cellParagraphs {t : Table} {p : Paragraph} {row : Row} {c : Cell}
    (hrow : row ∈ t.rows) (hc : c ∈ row.cells) (hp : p ∈ c.paragraphs) :
    p ∈ t.cellParagraphs := by
  unfold Table.cellParagraphs
  rw [List.mem_flatten]
  refine ⟨(row.cells.map Cell.paragraphs).flatten, List.mem_map_of_mem _ hrow, ?_⟩
  rw [List.mem_flatten]
  exact ⟨c.paragraphs, List.mem_map_of_mem _ hc, hp⟩

theorem farParagraphs_nomatch (f r : Str) (l : List Paragraph)
    (h : ∀ p ∈ l, ¬ (f <:+: p.text)) : farParagraphs f r l = (l, 0) := by
  induction l with
  | nil => rfl
  | cons p ps ih =>
    have hp := h p (List.mem_cons_self p ps)
    have hps := ih (fun q hq => h q (List.mem_cons_of_mem p hq))
    simp only [farParagraphs, farParagraph, if_neg hp, hps]

theorem farCells_nomatch (f r : Str) (cs : List Cell)
    (h : ∀ c ∈ cs, ∀ p ∈ c.paragraphs, ¬ (f <:+: p.text)) : farCells f r cs = (cs, 0) := by
  induction cs with
  | nil => rfl
  | cons c cs ih =>
    have hc := farParagraphs_nomatch f r c.paragraphs (h c (List.mem_cons_self c cs))
    have hcs := ih (fun x hx => h x (List.mem_cons_of_mem c hx))
    simp only [farCells, farCell, hc, hcs]

theorem farRows_nomatch (f r : Str) (rows : List Row)
    (h : ∀ row ∈ rows, ∀ c ∈ row.cells, ∀ p ∈ c.paragraphs, ¬ (f <:+: p.text)) :
    farRows f r rows = (rows, 0) := by
  induction rows with
  | nil => rfl
  | cons row rows ih =>
    have hrow := farCells_nomatch f r row.cells (h row (List.mem_cons_self row rows))
    have hrows := ih (fun x hx => h x (List.mem_cons_of_mem row hx))
    simp only [farRows, farRow, hrow, hrows]

theorem farTables_nomatch (f r : Str) (ts : List Table)
    (h : ∀ t ∈ ts, ∀ p ∈ t.cellParagraphs, ¬ (f <:+: p.text)) :
    farTables f r ts = (ts, 0) := by
  induction ts with
  | nil => rfl
  | cons t ts ih =>
    have ht := farRows_nomatch f r t.rows
      (fun row hrow c hc p hp =>
        h t (List.mem_cons_self t ts) p (mem_cellParagraphs hrow hc hp))
    have hts := ih (fun x hx => h x (List.mem_cons_of_mem t hx))
    simp only [farTables, farTable, ht, hts]

/-- C4: when the search text occurs in no paragraph's visible text (body
paragraphs and table-cell paragraphs alike), `find_and_replace` returns
the document unchanged together with the count 0 — a normal return value,
not an error. -/
theorem find_and_replace_absent_text (d : DocxDocument) (f r : Str)
    (h : ∀ p ∈ allParagraphs d, ¬ (f <:+: p.text)) :
    find_and_replace d f r = (d, 0) := by
  have hbody : ∀ p ∈ d.paragraphs, ¬ (f <:+: p.text) := fun p hp =>
    h p (List.mem_append_left _ hp)
  have htab : ∀ t ∈ d.tables, ∀ p ∈ t.cellParagraphs, ¬ (f <:+: p.text) := fun t ht p hp =>
    h p (List.mem_append_right _ (List.mem_flatten.mpr ⟨_, List.mem_map_of_mem _ ht, hp⟩))
  unfold find_and_replace
  rw [farParagraphs_nomatch _ _ _ hbody, farTables_nomatch _ _ _ htab]
  rfl

/-- Witness for C4: a two-paragraph document (one of them in a table cell)
in which the text `xyz` occurs nowhere. -/
theorem find_and_replace_absent_text_witness :
    (∀ p ∈ allParagraphs ⟨[⟨[⟨"hello world".data⟩]⟩],
        [⟨[⟨[⟨[⟨[⟨"cell text".data⟩]⟩]⟩]⟩]⟩]⟩, ¬ ("xyz".data <:+: p.text)) ∧
    find_and_replace ⟨[⟨[⟨"hello world".data⟩]⟩],
        [⟨[⟨[⟨[⟨[⟨"cell text".data⟩]⟩]⟩]⟩]⟩]⟩ "xyz".data "Q".data
      = (⟨[⟨[⟨"hello world".data⟩]⟩], [⟨[⟨[⟨[⟨[⟨"cell text".data⟩]⟩]⟩]⟩]⟩]⟩, 0) :=
  ⟨by decide,
   find_and_replace_absent_text _ "xyz".data "Q".data (by decide)⟩

/-- C5: for nonempty search text, the counter of `find_and_replace` is the
number of runs whose own text contains the search text — one increment per
touched run, not per occurrence — while each touched run has every
occurrence inside it replaced (`str.replace` semantics), and a run whose
text only forms the search text concatenated with adjacent runs is left
untouched. -/
theorem find_and_replace_run_counting (d : DocxDocument) (f r : Str)
    (hf : f ≠ []) :
    find_and_replace d f r = (mapRuns d (replaceRunIfMatch f r),
      (allRuns d).countP (fun run => decide (f <:+: run.text))) :=
  find_and_replace_eq d f r

/-- Witness for C5: `AB` occurs twice inside the single run of the first
paragraph and once in a run of the second; the third paragraph spells
`AB` only across two runs.  The count is 2 (not 3), all three literal
occurrences are replaced, and the split-run paragraph is untouched. -/
theorem find_and_replace_run_counting_witness :
    ("AB".data ≠ []) ∧
    find_and_replace ⟨[⟨[⟨"xAByAB".data⟩]⟩, ⟨[⟨"AB".data⟩]⟩, ⟨[⟨"A".data⟩, ⟨"B".data⟩]⟩], []⟩
        "AB".data "C".data
      = (mapRuns ⟨[⟨[⟨"xAByAB".data⟩]⟩, ⟨[⟨"AB".data⟩]⟩, ⟨[⟨"A".data⟩, ⟨"B".data⟩]⟩], []⟩
          (replaceRunIfMatch "AB".data "C".data),
         (allRuns ⟨[⟨[⟨"xAByAB".data⟩]⟩, ⟨[⟨"AB".data⟩]⟩, ⟨[⟨"A".data⟩, ⟨"B".data⟩]⟩], []⟩).countP
           (fun run => decide ("AB".data <:+: run.text))) ∧
    (find_and_replace ⟨[⟨[⟨"xAByAB".data⟩]⟩, ⟨[⟨"AB".data⟩]⟩, ⟨[⟨"A".data⟩, ⟨"B".data⟩]⟩], []⟩
        "AB".data "C".data).2 = 2 ∧
    (find_and_replace ⟨[⟨[⟨"xAByAB".data⟩]⟩, ⟨[⟨"AB".data⟩]⟩, ⟨[⟨"A".data⟩, ⟨"B".data⟩]⟩], []⟩
        "AB".data "C".data).1
      = ⟨[⟨[⟨"xCyC".data⟩]⟩, ⟨[⟨"C".data⟩]⟩, ⟨[⟨"A".data⟩, ⟨"B".data⟩]⟩], []⟩ :=
  ⟨by decide,
   find_and_replace_run_counting _ _ _ (by decide),
   by decide, by decide⟩

/-- C10: with empty search text the containment test holds for every
paragraph and every run, so the count equals the total number of runs of
the document, and every run's text has the replacement inserted at every
character boundary (Python `str.replace` with an empty pattern); no
"not found" outcome is possible in a document that has runs. -/
theorem find_and_replace_empty_find (d : DocxDocument) (r : Str) :
    find_and_replace d [] r
      = (mapRuns d (fun run => ⟨r ++ (run.text.map (fun c => c :: r)).flatten⟩),
         (allRuns d).length) := by
  rw [find_and_replace_eq]
  have h1 : replaceRunIfMatch [] r
      = (fun run => (⟨r ++ (run.text.map (fun c => c :: r)).flatten⟩ : Run)) := by
    funext run
    simp [replaceRunIfMatch, List.nil_infix, replaceAll]
  have h2 : (fun run : Run => decide (([] : Str) <:+: run.text)) = fun _ => true := by
    funext run
    simp [List.nil_infix]
  rw [h1, h2, List.countP_true]

example : paragraphPlaceholders ⟨[⟨"say \x7b\x7b foo \x7d\x7d and \x7b\x7bbar\x7d\x7d ok".data⟩]⟩
    = ["foo".data, "bar".data] := by decide
example : paragraphPlaceholders ⟨[⟨"\x7b\x7b a b \x7d\x7d \x7b\x7b\x7bx\x7d\x7d".data⟩]⟩
    = ["x".data] := by decide

/-- C7: `scan_placeholders` returns the distinct identifiers matched by the
placeholder pattern over every body paragraph and table-cell paragraph, in
sorted order with duplicates collapsed, and the result depends only on the
multiset of matches — traversal order does not affect it. -/
theorem scan_placeholders_sorted_distinct (d d' : DocxDocument) (x : Str)
    (hperm : (allPlaceholderMatches d).Perm (allPlaceholderMatches d')) :
    scan_placeholders d = scan_placeholders d' ∧
    List.Sorted (· ≤ ·) (scan_placeholders d) ∧
    (scan_placeholders d).Nodup ∧
    (x ∈ scan_placeholders d ↔ x ∈ allPlaceholderMatches d) := by
  have hsort : ∀ e : DocxDocument, List.Sorted (· ≤ ·) (scan_placeholders e) :=
    fun e => List.sorted_insertionSort _ _
  have hperm2 : ∀ e : DocxDocument, (scan_placeholders e).Perm (allPlaceholderMatches e).dedup :=
    fun e => List.perm_insertionSort _ _
  refine ⟨?_, hsort d, ?_, ?_⟩
  · exact List.eq_of_perm_of_sorted
      ((hperm2 d).trans ((hperm.dedup).trans (hperm2 d').symm)) (hsort d) (hsort d')
  · exact ((hperm2 d).nodup_iff).mpr (List.nodup_dedup _)
  · rw [(hperm2 d).mem_iff, List.mem_dedup]

/-- Witness for C7: a document containing the tags `foo`, `bar` and a
duplicate `foo` (one of them inside a table cell), and a second document
with the same tags in a different traversal order; both scan to exactly
`[bar, foo]`. -/
theorem scan_placeholders_sorted_distinct_witness :
    (allPlaceholderMatches ⟨[⟨[⟨"\x7b\x7b foo \x7d\x7d".data⟩]⟩, ⟨[⟨"\x7b\x7bbar\x7d\x7d".data⟩]⟩],
        [⟨[⟨[⟨[⟨[⟨"\x7b\x7b foo \x7d\x7d".data⟩]⟩]⟩]⟩]⟩]⟩).Perm
      (allPlaceholderMatches ⟨[⟨[⟨"\x7b\x7bbar\x7d\x7d".data⟩]⟩, ⟨[⟨"\x7b\x7b foo \x7d\x7d".data⟩]⟩,
        ⟨[⟨"\x7b\x7b foo \x7d\x7d".data⟩]⟩], []⟩) ∧
    scan_placeholders ⟨[⟨[⟨"\x7b\x7b foo \x7d\x7d".data⟩]⟩, ⟨[⟨"\x7b\x7bbar\x7d\x7d".data⟩]⟩],
        [⟨[⟨[⟨[⟨[⟨"\x7b\x7b foo \x7d\x7d".data⟩]⟩]⟩]⟩]⟩]⟩
      = scan_placeholders ⟨[⟨[⟨"\x7b\x7bbar\x7d\x7d".data⟩]⟩, ⟨[⟨"\x7b\x7b foo \x7d\x7d".data⟩]⟩,
        ⟨[⟨"\x7b\x7b foo \x7d\x7d".data⟩]⟩], []⟩ ∧
    scan_placeholders ⟨[⟨[⟨"\x7b\x7b foo \x7d\x7d".data⟩]⟩, ⟨[⟨"\x7b\x7bbar\x7d\x7d".data⟩]⟩],
        [⟨[⟨[⟨[⟨[⟨"\x7b\x7b foo \x7d\x7d".data⟩]⟩]⟩]⟩]⟩]⟩
      = ["bar".data, "foo".data] :=
  ⟨by decide,
   (scan_placeholders_sorted_distinct _ _ [] (by decide)).1,
   by decide⟩

theorem lookupKey_append_some {α : Type} {k : Str} {A B : List (Str × α)} {v : α}
    (h : lookupKey k A = some v) : lookupKey k (A ++ B) = some v := by
  induction A with
  | nil => simp [lookupKey] at h
  | cons kv rest ih =>
    rcases kv with ⟨k', v'⟩
    by_cases hk : k' = k
    · simp only [lookupKey, if_pos hk] at h
      simp only [List.cons_append, lookupKey, if_pos hk, h]
    · simp only [lookupKey, if_neg hk] at h
      simp only [List.cons_append, lookupKey, if_neg hk]
      exact ih h

theorem lookupKey_append_none {α : Type} {k : Str} {A B : List (Str × α)}
    (h : lookupKey k A = none) : lookupKey k (A ++ B) = lookupKey k B := by
  induction A with
  | nil => rfl
  | cons kv rest ih =>
    rcases kv with ⟨k', v'⟩
    by_cases hk : k' = k
    · simp [lookupKey, if_pos hk] at h
    · simp only [lookupKey, if_neg hk] at h
      simp only [List.cons_append, lookupKey, if_neg hk]
      exact ih h

theorem lookupKey_map_merge {α : Type} (p r : List (Str × α)) (k : Str) :
    lookupKey k (p.map (fun kv => match lookupKey kv.1 r with | some v => (kv.1, v) | none => kv))
      = match lookupKey k p, lookupKey k r with
        | none, _ => none
        | some _, some v => some v
        | some w, none => some w := by
  induction p with
  | nil => rfl
  | cons kv rest ih =>
    rcases kv with ⟨k', v'⟩
    by_cases hk : k' = k
    · subst hk
      cases hr : lookupKey k' r with
      | some v => simp [lookupKey, hr]
      | none => simp [lookupKey, hr]
    · cases hr : lookupKey k' r with
      | some v =>
        simp only [List.map_cons, hr, lookupKey, if_neg hk]
        exact ih
      | none =>
        simp only [List.map_cons, hr, lookupKey, if_neg hk]
        exact ih

theorem lookupKey_filter_none {α : Type} (p r : List (Str × α)) (k : Str)
    (hp : lookupKey k p = none) :
    lookupKey k (r.filter (fun kv => (lookupKey kv.1 p).isNone)) = lookupKey k r := by
  induction r with
  | nil => rfl
  | cons kv rest ih =>
    rcases kv with ⟨k', v'⟩
    by_cases hk : k' = k
    · subst hk
      simp [List.filter_cons, hp, lookupKey, ih]
    · by_cases hkp : (lookupKey k' p).isNone
      · simp only [List.filter_cons]
        rw [if_pos (by simpa using hkp)]
        simp only [lookupKey, if_neg hk]
        exact ih
      · simp only [List.filter_cons]
        rw [if_neg (by simpa using hkp)]
        rw [ih]
        simp only [lookupKey, if_neg hk]

/-- C6: the context `fill_template_action` renders and stores is the
shallow merge of the previous context with the caller's replacements:
every key of the replacements maps to the replacement value (overwriting
the previous one where both are defined), and every key of the previous
context absent from the replacements persists with its previous value —
so no key is dropped. -/
theorem dictMerge_shallow {α : Type} (p r : List (Str × α)) (k : Str) :
    (∀ v, lookupKey k r = some v → lookupKey k (dictMerge p r) = some v) ∧
    (lookupKey k r = none → lookupKey k (dictMerge p r) = lookupKey k p) := by
  unfold dictMerge
  constructor
  · intro v hv
    cases hp : lookupKey k p with
    | some w =>
      apply lookupKey_append_some
      rw [lookupKey_map_merge, hp, hv]
    | none =>
      rw [lookupKey_append_none (by rw [lookupKey_map_merge, hp])]
      rw [lookupKey_filter_none p r k hp, hv]
  · intro hv
    cases hp : lookupKey k p with
    | some w =>
      rw [lookupKey_append_some (v := w) (by rw [lookupKey_map_merge, hp, hv])]
    | none =>
      rw [lookupKey_append_none (by rw [lookupKey_map_merge, hp])]
      rw [lookupKey_filter_none p r k hp, hv]

/-- Witness for C6: merging prior `a=1, b=2` with new `b=3, c=4` gives
`b` the new value 3, keeps `a` at 1, and the merged dict is exactly
`a=1, b=3, c=4`. -/
theorem dictMerge_shallow_witness :
    (lookupKey "b".data [("b".data, 3), ("c".data, 4)] = some 3 →
      lookupKey "b".data (dictMerge [("a".data, 1), ("b".data, 2)] [("b".data, 3), ("c".data, 4)])
        = some 3) ∧
    lookupKey "b".data (dictMerge [("a".data, 1), ("b".data, 2)] [("b".data, 3), ("c".data, 4)])
      = some 3 ∧
    lookupKey "a".data (dictMerge [("a".data, 1), ("b".data, 2)] [("b".data, 3), ("c".data, 4)])
      = lookupKey "a".data [("a".data, 1), ("b".data, 2)] ∧
    dictMerge [("a".data, 1), ("b".data, 2)] [("b".data, 3), ("c".data, 4)]
      = [("a".data, 1), ("b".data, 3), ("c".data, 4)] :=
  ⟨(dictMerge_shallow _ _ _).1 3,
   (dictMerge_shallow [("a".data, 1), ("b".data, 2)] [("b".data, 3), ("c".data, 4)] "b".data).1
     3 (by decide),
   (dictMerge_shallow [("a".data, 1), ("b".data, 2)] [("b".data, 3), ("c".data, 4)] "a".data).2
     (by decide),
   by decide⟩

/-- C9: `deserialize_context` maps the empty (or absent, since an absent
record is downloaded as the empty string) input to the empty mapping
without invoking the JSON parser — so it cannot fail there, and callers
cannot distinguish "no prior context" from "empty context" — and hands
every nonempty input to the parser, returning the parsed mapping. -/
theorem deserialize_context_empty_and_parse {α : Type} (loads : Str → List (Str × α)) :
    deserialize_context loads [] = [] ∧
    ∀ s : Str, s ≠ [] → deserialize_context loads s = loads s := by
  constructor
  · rfl
  · intro s hs
    unfold deserialize_context
    rw [if_neg hs]

/-- Witness for C9 with a concrete parser: the empty string yields the
empty mapping and a nonempty string is parsed. -/
theorem deserialize_context_empty_and_parse_witness :
    deserialize_context (fun _ => [("k".data, 1)]) [] = [] ∧
    ("x".data ≠ []) ∧
    deserialize_context (fun _ => [("k".data, 1)]) "x".data
      = (fun _ : Str => [("k".data, 1)]) "x".data :=
  ⟨(deserialize_context_empty_and_parse _).1, by decide,
   (deserialize_context_empty_and_parse _).2 "x".data (by decide)⟩

theorem listing_ne_nil_of_latest {g : Graph} {project out latest : Str}
    (hlat : get_latest_version_filename project
        (listedFiles (g.listing (projectFolder out project))) = some latest) :
    g.listing (projectFolder out project) ≠ [] := by
  intro h
  rw [h] at hlat
  simp [listedFiles, get_latest_version_filename, familyFiles] at hlat

/-- C3: an edit-document invocation whose `find_and_replace` makes zero
replacements returns the descriptive not-found result naming the search
text and the latest version, performs no storage write at all (its trace
is exactly the listing and the document download), and leaves every
stored state unchanged — in particular no new version exists, so the
version number is not incremented. -/
theorem edit_document_zero_replacements {α : Type} (g : Graph)
    (loads : Str → List (Str × α)) (dumps : List (Str × α) → Str)
    (project find repl out latest : Str)
    (hlat : get_latest_version_filename project
        (listedFiles (g.listing (projectFolder out project))) = some latest)
    (hcount : (find_and_replace (g.docx (projectFolder out project) latest) find repl).2 = 0) :
    edit_document_action g loads dumps project find repl out
      = (.notFound find latest,
         [.listFolder (projectFolder out project),
          .downloadDocx (projectFolder out project) latest]) ∧
    (∀ e ∈ (edit_document_action g loads dumps project find repl out).2, e.isWrite = false) ∧
    (∀ st : StoreState,
      applyTrace st (edit_document_action g loads dumps project find repl out).2 = st) := by
  have heq : edit_document_action g loads dumps project find repl out
      = (.notFound find latest,
         [.listFolder (projectFolder out project),
          .downloadDocx (projectFolder out project) latest]) := by
    simp only [edit_document_action, if_neg (listing_ne_nil_of_latest hlat), hlat]
    rw [if_pos hcount]
  refine ⟨heq, ?_, ?_⟩
  · rw [heq]
    intro e he
    simp only [List.mem_cons, List.not_mem_nil, or_false] at he
    rcases he with rfl | rfl <;> rfl
  · intro st
    rw [heq]
    rfl

/-- Witness for C3: one project version whose only text is `A`; searching
for the absent text `Z` returns the not-found result with no write. -/
theorem edit_document_zero_replacements_witness :
    get_latest_version_filename "p".data
      (listedFiles ((⟨fun f => if f = "o/p".data then [⟨"p_v01.docx".data, false⟩] else [],
          fun _ _ => ⟨[⟨[⟨"A".data⟩]⟩], []⟩, fun _ _ => "J".data, fun _ _ => []⟩ : Graph).listing
        (projectFolder "o".data "p".data))) = some "p_v01.docx".data ∧
    (find_and_replace
      ((⟨fun f => if f = "o/p".data then [⟨"p_v01.docx".data, false⟩] else [],
          fun _ _ => ⟨[⟨[⟨"A".data⟩]⟩], []⟩, fun _ _ => "J".data, fun _ _ => []⟩ : Graph).docx
        (projectFolder "o".data "p".data) "p_v01.docx".data) "Z".data "B".data).2 = 0 ∧
    edit_document_action
      (⟨fun f => if f = "o/p".data then [⟨"p_v01.docx".data, false⟩] else [],
          fun _ _ => ⟨[⟨[⟨"A".data⟩]⟩], []⟩, fun _ _ => "J".data, fun _ _ => []⟩ : Graph)
      (fun _ => ([] : List (Str × Nat))) (fun _ => []) "p".data "Z".data "B".data "o".data
      = (.notFound "Z".data "p_v01.docx".data,
         [.listFolder (projectFolder "o".data "p".data),
          .downloadDocx (projectFolder "o".data "p".data) "p_v01.docx".data]) :=
  ⟨by decide, by decide,
   (edit_document_zero_replacements
      (⟨fun f => if f = "o/p".data then [⟨"p_v01.docx".data, false⟩] else [],
          fun _ _ => ⟨[⟨[⟨"A".data⟩]⟩], []⟩, fun _ _ => "J".data, fun _ _ => []⟩ : Graph)
      (fun _ => ([] : List (Str × Nat))) (fun _ => []) "p".data "Z".data "B".data "o".data
      "p_v01.docx".data (by decide) (by decide)).1⟩

theorem deserialize_context_of_ne_nil {α : Type} (loads : Str → List (Str × α)) {s : Str}
    (hs : s ≠ []) : deserialize_context loads s = loads s := by
  unfold deserialize_context
  rw [if_neg hs]

/-- C2: after a successful edit (latest version present, at least one
replacement) the new version's Memory context equals the previous
version's context, for every previous context.  The context of a version
is what `deserialize_context` yields on its stored JSON text, with the
empty string standing for an absent record exactly as
`download_json_file` reports it; when the previous context is nonempty
the action uploads its serialization under the new version's name, and
when it is empty it writes nothing, which deserializes back to the same
empty context.  The hypotheses on `loads`/`dumps` are the JSON library's
round-trip contract at the one context involved. -/
theorem edit_document_carries_context {α : Type} (g : Graph)
    (loads : Str → List (Str × α)) (dumps : List (Str × α) → Str)
    (project find repl out latest : Str)
    (hlat : get_latest_version_filename project
        (listedFiles (g.listing (projectFolder out project))) = some latest)
    (hcount : (find_and_replace (g.docx (projectFolder out project) latest) find repl).2 ≠ 0)
    (hround : loads (dumps (deserialize_context loads
        (g.json (memoryFolder (projectFolder out project))
          (replaceAll ".docx".data ".json".data latest))))
      = deserialize_context loads
          (g.json (memoryFolder (projectFolder out project))
            (replaceAll ".docx".data ".json".data latest)))
    (hdumps : dumps (deserialize_context loads
        (g.json (memoryFolder (projectFolder out project))
          (replaceAll ".docx".data ".json".data latest))) ≠ []) :
    deserialize_context loads
      ((jsonWritten (edit_document_action g loads dumps project find repl out).2
          (memoryFolder (projectFolder out project))
          (replaceAll ".docx".data ".json".data
            (next_version_filename project
              (listedFiles (g.listing (projectFolder out project)))))).getD [])
      = deserialize_context loads
          (g.json (memoryFolder (projectFolder out project))
            (replaceAll ".docx".data ".json".data latest)) := by
  simp only [edit_document_action, if_neg (listing_ne_nil_of_latest hlat), hlat]
  rw [if_neg hcount]
  by_cases hemp : (deserialize_context loads
      (g.json (memoryFolder (projectFolder out project))
        (replaceAll ".docx".data ".json".data latest))).isEmpty
  · rw [if_pos hemp]
    have hnil : deserialize_context loads
        (g.json (memoryFolder (projectFolder out project))
          (replaceAll ".docx".data ".json".data latest)) = [] :=
      List.isEmpty_iff.mp hemp
    rw [hnil]
    rfl
  · rw [if_neg hemp]
    simp only [jsonWritten, List.foldl_append, List.foldl_cons, List.foldl_nil, and_self,
      if_true, Option.getD_some] at hdumps hround ⊢
    rw [deserialize_context_of_ne_nil loads hdumps, hround]

/-- Witness for C2: a one-version project with context `a = 1` stored as
the text `J`; after replacing `A` by `B` (one replacement), the context
stored for the new version equals the previous one. -/
theorem edit_document_carries_context_witness :
    get_latest_version_filename "p".data
      (listedFiles ((⟨fun f => if f = "o/p".data then [⟨"p_v01.docx".data, false⟩] else [],
          fun _ _ => ⟨[⟨[⟨"A".data⟩]⟩], []⟩, fun _ _ => "J".data, fun _ _ => []⟩ : Graph).listing
        (projectFolder "o".data "p".data))) = some "p_v01.docx".data ∧
    (find_and_replace
      ((⟨fun f => if f = "o/p".data then [⟨"p_v01.docx".data, false⟩] else [],
          fun _ _ => ⟨[⟨[⟨"A".data⟩]⟩], []⟩, fun _ _ => "J".data, fun _ _ => []⟩ : Graph).docx
        (projectFolder "o".data "p".data) "p_v01.docx".data) "A".data "B".data).2 ≠ 0 ∧
    deserialize_context
      (fun s => if s = "J".data ∨ s = "K".data then [("a".data, 1)] else ([] : List (Str × Nat)))
      ((jsonWritten
          (edit_document_action
            (⟨fun f => if f = "o/p".data then [⟨"p_v01.docx".data, false⟩] else [],
              fun _ _ => ⟨[⟨[⟨"A".data⟩]⟩], []⟩, fun _ _ => "J".data, fun _ _ => []⟩ : Graph)
            (fun s => if s = "J".data ∨ s = "K".data then [("a".data, 1)] else ([] : List (Str × Nat)))
            (fun _ => "K".data) "p".data "A".data "B".data "o".data).2
          (memoryFolder (projectFolder "o".data "p".data))
          (replaceAll ".docx".data ".json".data
            (next_version_filename "p".data
              (listedFiles ((⟨fun f => if f = "o/p".data then [⟨"p_v01.docx".data, false⟩] else [],
                  fun _ _ => ⟨[⟨[⟨"A".data⟩]⟩], []⟩, fun _ _ => "J".data,
                  fun _ _ => []⟩ : Graph).listing
                (projectFolder "o".data "p".data)))))).getD [])
      = deserialize_context
          (fun s => if s = "J".data ∨ s = "K".data then [("a".data, 1)] else ([] : List (Str × Nat)))
          ((⟨fun f => if f = "o/p".data then [⟨"p_v01.docx".data, false⟩] else [],
              fun _ _ => ⟨[⟨[⟨"A".data⟩]⟩], []⟩, fun _ _ => "J".data, fun _ _ => []⟩ : Graph).json
            (memoryFolder (projectFolder "o".data "p".data))
            (replaceAll ".docx".data ".json".data "p_v01.docx".data)) :=
  ⟨by decide, by decide,
   edit_document_carries_context
     (⟨fun f => if f = "o/p".data then [⟨"p_v01.docx".data, false⟩] else [],
        fun _ _ => ⟨[⟨[⟨"A".data⟩]⟩], []⟩, fun _ _ => "J".data, fun _ _ => []⟩ : Graph)
     (fun s => if s = "J".data ∨ s = "K".data then [("a".data, 1)] else ([] : List (Str × Nat)))
     (fun _ => "K".data) "p".data "A".data "B".data "o".data "p_v01.docx".data
     (by decide) (by decide) (by decide) (by decide)⟩

/-- C8 as stated is false on the code: a concrete successful edit (one
existing version whose text contains `A`, nonempty previous context)
produces the trace listing → document download → document upload →
Memory read → Memory upload, in which an upload (the new document's)
occurs before the previous Memory record has been read. -/
theorem edit_document_upload_before_memory_read :
    uploadsOnlyAfterMemoryRead
      (edit_document_action
        (⟨fun f => if f = "o/p".data then [⟨"p_v01.docx".data, false⟩] else [],
          fun _ _ => ⟨[⟨[⟨"A".data⟩]⟩], []⟩, fun _ _ => "J".data, fun _ _ => []⟩ : Graph)
        (fun s => if s = "J".data ∨ s = "K".data then [("a".data, 1)] else ([] : List (Str × Nat)))
        (fun _ => "K".data) "p".data "A".data "B".data "o".data).2 false = false := by
  decide

/-- C8 (amended): the storage operations of a successful edit are, in
order, the folder listing, the latest-document download, the new-document
upload, the previous-Memory read, and — only when the previous context is
nonempty — the Memory upload.  So the Memory-record upload does occur
only after the Memory record has been read, and (with C3's short-circuit)
no other interleaving happens, but the new document upload is issued
before the previous Memory record is read, not after all reads. -/
theorem edit_document_trace_order {α : Type} (g : Graph)
    (loads : Str → List (Str × α)) (dumps : List (Str × α) → Str)
    (project find repl out latest : Str)
    (hlat : get_latest_version_filename project
        (listedFiles (g.listing (projectFolder out project))) = some latest)
    (hcount : (find_and_replace (g.docx (projectFolder out project) latest) find repl).2 ≠ 0) :
    (edit_document_action g loads dumps project find repl out).2
      = [.listFolder (projectFolder out project),
         .downloadDocx (projectFolder out project) latest,
         .uploadDocx (projectFolder out project)
           (next_version_filename project (listedFiles (g.listing (projectFolder out project))))
           (find_and_replace (g.docx (projectFolder out project) latest) find repl).1,
         .downloadJson (memoryFolder (projectFolder out project))
           (replaceAll ".docx".data ".json".data latest)]
        ++ (if (deserialize_context loads (g.json (memoryFolder (projectFolder out project))
              (replaceAll ".docx".data ".json".data latest))).isEmpty then []
            else [.uploadJson (memoryFolder (projectFolder out project))
              (replaceAll ".docx".data ".json".data
                (next_version_filename project (listedFiles (g.listing (projectFolder out project)))))
              (dumps (deserialize_context loads (g.json (memoryFolder (projectFolder out project))
                (replaceAll ".docx".data ".json".data latest))))]) := by
  simp only [edit_document_action, if_neg (listing_ne_nil_of_latest hlat), hlat]
  rw [if_neg hcount]
  by_cases hemp : (deserialize_context loads (g.json (memoryFolder (projectFolder out project))
      (replaceAll ".docx".data ".json".data latest))).isEmpty
  · rw [if_pos hemp, if_pos hemp, List.append_nil]
  · rw [if_neg hemp, if_neg hemp]

/-- Witness for the amended C8 at the counterexample's input: the trace
equation instantiated at the concrete one-version project. -/
theorem edit_document_trace_order_witness :
    get_latest_version_filename "p".data
      (listedFiles ((⟨fun f => if f = "o/p".data then [⟨"p_v01.docx".data, false⟩] else [],
          fun _ _ => ⟨[⟨[⟨"A".data⟩]⟩], []⟩, fun _ _ => "J".data, fun _ _ => []⟩ : Graph).listing
        (projectFolder "o".data "p".data))) = some "p_v01.docx".data ∧
    (find_and_replace
      ((⟨fun f => if f = "o/p".data then [⟨"p_v01.docx".data, false⟩] else [],
          fun _ _ => ⟨[⟨[⟨"A".data⟩]⟩], []⟩, fun _ _ => "J".data, fun _ _ => []⟩ : Graph).docx
        (projectFolder "o".data "p".data) "p_v01.docx".data) "A".data "B".data).2 ≠ 0 ∧
    (edit_document_action
        (⟨fun f => if f = "o/p".data then [⟨"p_v01.docx".data, false⟩] else [],
          fun _ _ => ⟨[⟨[⟨"A".data⟩]⟩], []⟩, fun _ _ => "J".data, fun _ _ => []⟩ : Graph)
        (fun s => if s = "J".data ∨ s = "K".data then [("a".data, 1)] else ([] : List (Str × Nat)))
        (fun _ => "K".data) "p".data "A".data "B".data "o".data).2
      = [.listFolder (projectFolder "o".data "p".data),
         .downloadDocx (projectFolder "o".data "p".data) "p_v01.docx".data,
         .uploadDocx (projectFolder "o".data "p".data)
           (next_version_filename "p".data
             (listedFiles ((⟨fun f => if f = "o/p".data then [⟨"p_v01.docx".data, false⟩] else [],
                 fun _ _ => ⟨[⟨[⟨"A".data⟩]⟩], []⟩, fun _ _ => "J".data,
                 fun _ _ => []⟩ : Graph).listing (projectFolder "o".data "p".data))))
           (find_and_replace
             ((⟨fun f => if f = "o/p".data then [⟨"p_v01.docx".data, false⟩] else [],
                 fun _ _ => ⟨[⟨[⟨"A".data⟩]⟩], []⟩, fun _ _ => "J".data,
                 fun _ _ => []⟩ : Graph).docx
               (projectFolder "o".data "p".data) "p_v01.docx".data) "A".data "B".data).1,
         .downloadJson (memoryFolder (projectFolder "o".data "p".data))
           (replaceAll ".docx".data ".json".data "p_v01.docx".data)]
        ++ (if (deserialize_context
              (fun s => if s = "J".data ∨ s = "K".data then [("a".data, 1)] else ([] : List (Str × Nat)))
              ((⟨fun f => if f = "o/p".data then [⟨"p_v01.docx".data, false⟩] else [],
                  fun _ _ => ⟨[⟨[⟨"A".data⟩]⟩], []⟩, fun _ _ => "J".data,
                  fun _ _ => []⟩ : Graph).json (memoryFolder (projectFolder "o".data "p".data))
                (replaceAll ".docx".data ".json".data "p_v01.docx".data))).isEmpty then []
            else [.uploadJson (memoryFolder (projectFolder "o".data "p".data))
              (replaceAll ".docx".data ".json".data
                (next_version_filename "p".data
                  (listedFiles ((⟨fun f => if f = "o/p".data then [⟨"p_v01.docx".data, false⟩] else [],
                      fun _ _ => ⟨[⟨[⟨"A".data⟩]⟩], []⟩, fun _ _ => "J".data,
                      fun _ _ => []⟩ : Graph).listing (projectFolder "o".data "p".data)))))
              ((fun _ => "K".data)
                (deserialize_context
                  (fun s => if s = "J".data ∨ s = "K".data then [("a".data, 1)] else ([] : List (Str × Nat)))
                  ((⟨fun f => if f = "o/p".data then [⟨"p_v01.docx".data, false⟩] else [],
                      fun _ _ => ⟨[⟨[⟨"A".data⟩]⟩], []⟩, fun _ _ => "J".data,
                      fun _ _ => []⟩ : Graph).json (memoryFolder (projectFolder "o".data "p".data))
                    (replaceAll ".docx".data ".json".data "p_v01.docx".data))))]) :=
  ⟨by decide, by decide,
   edit_document_trace_order
     (⟨fun f => if f = "o/p".data then [⟨"p_v01.docx".data, false⟩] else [],
        fun _ _ => ⟨[⟨[⟨"A".data⟩]⟩], []⟩, fun _ _ => "J".data, fun _ _ => []⟩ : Graph)
     (fun s => if s = "J".data ∨ s = "K".data then [("a".data, 1)] else ([] : List (Str × Nat)))
     (fun _ => "K".data) "p".data "A".data "B".data "o".data "p_v01.docx".data
     (by decide) (by decide)⟩
